import Mathlib

/-!
Verification development for the mxml XML toolkit.

Shallow embedding of the C++ sources:
  - text.cxx     : character class predicates, trim, UTF-8 encode/decode
  - node.cxx     : write_string (text escaping), comment::write, element str()
  - node.hpp     : attribute_set::emplace / find
  - document.cxx : document::insert_impl
  - doctype.cpp  : the content-model FSM (validator) and attribute validation
  - xpath.cxx    : object type, variable lookup, core-function arity table and
                   the substring core function

Strings coming from the C++ side are modelled as lists of byte values
(List Nat, each element < 256) where the code iterates over bytes, and as
Lean String where the code treats the value as opaque text.
-/

set_option maxHeartbeats 1000000

namespace Mxml

/-! ### Character classes, text.cxx lines 39-68 and 70-90 -/

/-- Embedding of is_name_start_char (text.cxx): XML NameStartChar ranges. -/
def isNameStartChar (uc : Nat) : Bool :=
  uc == 0x3A ||
  (0x41 ≤ uc && uc ≤ 0x5A) ||
  uc == 0x5F ||
  (0x61 ≤ uc && uc ≤ 0x7A) ||
  (0x0C0 ≤ uc && uc ≤ 0x0D6) ||
  (0x0D8 ≤ uc && uc ≤ 0x0F6) ||
  (0x0F8 ≤ uc && uc ≤ 0x02FF) ||
  (0x0370 ≤ uc && uc ≤ 0x037D) ||
  (0x037F ≤ uc && uc ≤ 0x01FFF) ||
  (0x0200C ≤ uc && uc ≤ 0x0200D) ||
  (0x02070 ≤ uc && uc ≤ 0x0218F) ||
  (0x02C00 ≤ uc && uc ≤ 0x02FEF) ||
  (0x03001 ≤ uc && uc ≤ 0x0D7FF) ||
  (0x0F900 ≤ uc && uc ≤ 0x0FDCF) ||
  (0x0FDF0 ≤ uc && uc ≤ 0x0FFFD) ||
  (0x010000 ≤ uc && uc ≤ 0x0EFFFF)

/-- Embedding of is_name_char (text.cxx). -/
def isNameChar (uc : Nat) : Bool :=
  uc == 0x2D ||
  uc == 0x2E ||
  (0x30 ≤ uc && uc ≤ 0x39) ||
  uc == 0x0B7 ||
  isNameStartChar uc ||
  (0x00300 ≤ uc && uc ≤ 0x0036F) ||
  (0x0203F ≤ uc && uc ≤ 0x02040)

/-- Embedding of is_valid_xml_1_0_char (text.cxx). -/
def isValidXml10Char (uc : Nat) : Bool :=
  uc == 0x09 || uc == 0x0A || uc == 0x0D ||
  (0x020 ≤ uc && uc ≤ 0x0D7FF) ||
  (0x0E000 ≤ uc && uc ≤ 0x0FFFD) ||
  (0x010000 ≤ uc && uc ≤ 0x010FFFF)

/-- Embedding of is_valid_xml_1_1_char (text.cxx). -/
def isValidXml11Char (uc : Nat) : Bool :=
  uc == 0x09 || uc == 0x0A || uc == 0x0D ||
  (0x020 ≤ uc && uc < 0x07F) ||
  uc == 0x085 ||
  (0x0A0 ≤ uc && uc ≤ 0x0D7FF) ||
  (0x0E000 ≤ uc && uc ≤ 0x0FFFD) ||
  (0x010000 ≤ uc && uc ≤ 0x010FFFF)

/-- std::isspace in the C locale, as used by trim (text.cxx line 263). -/
def isSpaceByte (b : Nat) : Bool :=
  b == 0x20 || b == 0x09 || b == 0x0A || b == 0x0B || b == 0x0C || b == 0x0D

/-- Embedding of trim (text.cxx lines 259-279): removes white space from
both ends of the byte string. -/
def trimBytes (s : List Nat) : List Nat :=
  (s.dropWhile isSpaceByte).reverse.dropWhile isSpaceByte |>.reverse

/-! ### UTF-8, text.cxx: append (lines 129-160) and pop_front_char (203-254) -/

/-- Embedding of append (text.cxx): encode one code point as UTF-8 bytes. -/
def encodeUtf8Char (uc : Nat) : List Nat :=
  if uc < 0x080 then [uc]
  else if uc < 0x0800 then
    [0x0C0 ||| (uc >>> 6), 0x080 ||| (uc &&& 0x3F)]
  else if uc < 0x00010000 then
    [0x0E0 ||| (uc >>> 12), 0x080 ||| ((uc >>> 6) &&& 0x3F), 0x080 ||| (uc &&& 0x3F)]
  else
    [0x0F0 ||| (uc >>> 18), 0x080 ||| ((uc >>> 12) &&& 0x3F),
     0x080 ||| ((uc >>> 6) &&& 0x3F), 0x080 ||| (uc &&& 0x3F)]

/-- Embedding of pop_front_char (text.cxx lines 203-254).

Returns the decoded code point and the remaining bytes, or none when the
C++ code throws the Invalid utf-8 exception.  The C++ function is never
called at the end of the input (callers check first); we map that case to
none as well. -/
def popFrontChar : List Nat → Option (Nat × List Nat)
  | [] => none
  | b :: rest =>
    if b > 0x7f then
      if b &&& 0x0E0 == 0x0C0 then
        match rest with
        | b0 :: r =>
          if b0 &&& 0x0c0 != 0x080 then none
          else some (((b &&& 0x01F) <<< 6) ||| (b0 &&& 0x03F), r)
        | [] => none
      else if b &&& 0x0F0 == 0x0E0 then
        match rest with
        | b0 :: b1 :: r =>
          if b0 &&& 0x0c0 != 0x080 || b1 &&& 0x0c0 != 0x080 then none
          else some (((b &&& 0x00F) <<< 12) ||| ((b0 &&& 0x03F) <<< 6) ||| (b1 &&& 0x03F), r)
        | _ => none
      else if b &&& 0x0F8 == 0x0F0 then
        match rest with
        | b0 :: b1 :: b2 :: r =>
          if b0 &&& 0x0c0 != 0x080 || b1 &&& 0x0c0 != 0x080 || b2 &&& 0x0c0 != 0x080 then none
          else some (((b &&& 0x007) <<< 18) ||| ((b0 &&& 0x03F) <<< 12) |||
                       ((b1 &&& 0x03F) <<< 6) ||| (b2 &&& 0x03F), r)
        | _ => none
      else
        -- no lead-byte pattern matches: the byte is returned unchanged
        some (b, rest)
    else
      some (b, rest)

/-! ### Arithmetic helpers for the UTF-8 proofs -/

theorem natOrShiftAdd {k b : Nat} (a : Nat) (h : b < 2 ^ k) :
    (a <<< k) ||| b = a * 2 ^ k + b := by
  rw [Nat.shiftLeft_eq, Nat.mul_comm a (2 ^ k)]
  exact (Nat.mul_add_lt_is_or h a).symm

theorem natAnd63 (x : Nat) : x &&& 63 = x % 64 := by
  have h := Nat.and_pow_two_sub_one_eq_mod x 6
  norm_num at h
  exact h

theorem natShiftRight6 (x : Nat) : x >>> 6 = x / 64 := by
  have h := Nat.shiftRight_eq_div_pow x 6
  norm_num at h
  exact h

theorem natShiftRight12 (x : Nat) : x >>> 12 = x / 4096 := by
  have h := Nat.shiftRight_eq_div_pow x 12
  norm_num at h
  exact h

theorem natShiftRight18 (x : Nat) : x >>> 18 = x / 262144 := by
  have h := Nat.shiftRight_eq_div_pow x 18
  norm_num at h
  exact h

/-- Decoding the canonical encoding of a code point below 2^21 returns the
code point and consumes exactly its bytes.  (pop_front_char accepts every
byte sequence produced by append.) -/
theorem popFrontChar_encodeUtf8Char (c : Nat) (r : List Nat) (hc : c < 0x200000) :
    popFrontChar (encodeUtf8Char c ++ r) = some (c, r) := by
  have lead2 : ∀ q < 32, ((0xC0 ||| q) > 0x7f) ∧ ((0xC0 ||| q) &&& 0x0E0 = 0x0C0) ∧
      ((0xC0 ||| q) &&& 0x01F = q) := by decide
  have lead3 : ∀ q < 16, ((0xE0 ||| q) > 0x7f) ∧ ¬((0xE0 ||| q) &&& 0x0E0 = 0x0C0) ∧
      ((0xE0 ||| q) &&& 0x0F0 = 0x0E0) ∧ ((0xE0 ||| q) &&& 0x00F = q) := by decide
  have lead4 : ∀ q < 8, ((0xF0 ||| q) > 0x7f) ∧ ¬((0xF0 ||| q) &&& 0x0E0 = 0x0C0) ∧
      ¬((0xF0 ||| q) &&& 0x0F0 = 0x0E0) ∧ ((0xF0 ||| q) &&& 0x0F8 = 0x0F0) ∧
      ((0xF0 ||| q) &&& 0x007 = q) := by decide
  have cont : ∀ m < 64, ((0x80 ||| m) &&& 0x0c0 = 0x080) ∧ ((0x80 ||| m) &&& 0x03F = m) := by
    decide
  by_cases h1 : c < 0x80
  · rw [encodeUtf8Char, if_pos h1]
    simp only [List.cons_append, List.nil_append, popFrontChar]
    rw [if_neg (by omega)]
  · by_cases h2 : c < 0x800
    · rw [encodeUtf8Char, if_neg h1, if_pos h2]
      have hq : c >>> 6 < 32 := by rw [natShiftRight6]; omega
      have hm : c &&& 0x3F < 64 := by rw [natAnd63]; omega
      obtain ⟨hgt, hmask, hlow⟩ := lead2 _ hq
      obtain ⟨hc0, hc1⟩ := cont _ hm
      simp only [List.cons_append, List.nil_append, popFrontChar]
      rw [if_pos (by exact_mod_cast hgt), if_pos (by simp [hmask]),
        if_neg (by simp [hc0]), hlow, hc1]
      rw [natOrShiftAdd _ (by omega : c &&& 0x3F < 2 ^ 6), natAnd63, natShiftRight6]
      norm_num
      omega
    · by_cases h3 : c < 0x10000
      · rw [encodeUtf8Char, if_neg h1, if_neg h2, if_pos h3]
        have hq : c >>> 12 < 16 := by rw [natShiftRight12]; omega
        have hm1 : (c >>> 6) &&& 0x3F < 64 := by rw [natAnd63]; omega
        have hm2 : c &&& 0x3F < 64 := by rw [natAnd63]; omega
        obtain ⟨hgt, hnot2, hmask, hlow⟩ := lead3 _ hq
        obtain ⟨hb0, hb0v⟩ := cont _ hm1
        obtain ⟨hb1, hb1v⟩ := cont _ hm2
        simp only [List.cons_append, List.nil_append, popFrontChar]
        rw [if_pos (by exact_mod_cast hgt), if_neg (by simp [hnot2]),
          if_pos (by simp [hmask]), if_neg (by simp [hb0, hb1]), hlow, hb0v, hb1v]
        have key : ((c >>> 12) <<< 12) ||| (((c >>> 6) &&& 0x3F) <<< 6) ||| (c &&& 0x3F)
            = c := by
          have s1 : ((c >>> 12) <<< 12) ||| (((c >>> 6) &&& 0x3F) <<< 6) =
              ((c >>> 12) * 64 + ((c >>> 6) &&& 0x3F)) <<< 6 := by
            rw [natOrShiftAdd _
                (by rw [Nat.shiftLeft_eq]; norm_num; omega :
                  ((c >>> 6) &&& 0x3F) <<< 6 < 2 ^ 12),
              Nat.shiftLeft_eq, Nat.shiftLeft_eq]
            ring_nf
          rw [s1, natOrShiftAdd _ (by omega : c &&& 0x3F < 2 ^ 6)]
          rw [natAnd63, natAnd63, natShiftRight6, natShiftRight12]
          norm_num
          omega
        rw [key]
      · rw [encodeUtf8Char, if_neg h1, if_neg h2, if_neg h3]
        have hq : c >>> 18 < 8 := by rw [natShiftRight18]; omega
        have hm0 : (c >>> 12) &&& 0x3F < 64 := by rw [natAnd63]; omega
        have hm1 : (c >>> 6) &&& 0x3F < 64 := by rw [natAnd63]; omega
        have hm2 : c &&& 0x3F < 64 := by rw [natAnd63]; omega
        obtain ⟨hgt, hnot2, hnot3, hmask, hlow⟩ := lead4 _ hq
        obtain ⟨hb0, hb0v⟩ := cont _ hm0
        obtain ⟨hb1, hb1v⟩ := cont _ hm1
        obtain ⟨hb2, hb2v⟩ := cont _ hm2
        simp only [List.cons_append, List.nil_append, popFrontChar]
        rw [if_pos (by exact_mod_cast hgt), if_neg (by simp [hnot2]),
          if_neg (by simp [hnot3]), if_pos (by simp [hmask]),
          if_neg (by simp [hb0, hb1, hb2]), hlow, hb0v, hb1v, hb2v]
        have key : ((c >>> 18) <<< 18) ||| (((c >>> 12) &&& 0x3F) <<< 12) |||
            (((c >>> 6) &&& 0x3F) <<< 6) ||| (c &&& 0x3F) = c := by
          have s1 : ((c >>> 18) <<< 18) ||| (((c >>> 12) &&& 0x3F) <<< 12) =
              ((c >>> 18) * 64 + ((c >>> 12) &&& 0x3F)) <<< 12 := by
            rw [natOrShiftAdd _
                (by rw [Nat.shiftLeft_eq]; norm_num; omega :
                  ((c >>> 12) &&& 0x3F) <<< 12 < 2 ^ 18),
              Nat.shiftLeft_eq, Nat.shiftLeft_eq]
            ring_nf
          rw [s1]
          have s2 : (((c >>> 18) * 64 + ((c >>> 12) &&& 0x3F)) <<< 12) |||
              (((c >>> 6) &&& 0x3F) <<< 6) =
              (((c >>> 18) * 64 + ((c >>> 12) &&& 0x3F)) * 64 +
                ((c >>> 6) &&& 0x3F)) <<< 6 := by
            rw [natOrShiftAdd _
                (by rw [Nat.shiftLeft_eq]; norm_num; omega :
                  ((c >>> 6) &&& 0x3F) <<< 6 < 2 ^ 12),
              Nat.shiftLeft_eq, Nat.shiftLeft_eq]
            ring_nf
          rw [s2, natOrShiftAdd _ (by omega : c &&& 0x3F < 2 ^ 6)]
          rw [natAnd63, natAnd63, natAnd63, natShiftRight6, natShiftRight12, natShiftRight18]
          norm_num
          omega
        rw [key]

theorem popFrontChar_length {s : List Nat} {c : Nat} {rest : List Nat}
    (h : popFrontChar s = some (c, rest)) : rest.length < s.length := by
  match s with
  | [] => simp [popFrontChar] at h
  | [b] =>
    simp only [popFrontChar] at h
    repeat' split at h
    all_goals simp_all
  | [b, b0] =>
    simp only [popFrontChar] at h
    repeat' split at h
    all_goals simp_all
  | [b, b0, b1] =>
    simp only [popFrontChar] at h
    repeat' split at h
    all_goals simp_all
    all_goals (obtain ⟨-, hr⟩ := h; omega)
  | b :: b0 :: b1 :: b2 :: r =>
    simp only [popFrontChar] at h
    repeat' split at h
    all_goals simp_all
    all_goals (obtain ⟨-, hr⟩ := h; omega)

/-! ### The serializer text escaper, node.cxx write_string (lines 56-129) -/

/-- XML version record (version_type). -/
structure VersionT where
  major : Nat
  minor : Nat
deriving DecidableEq

/-- ASCII bytes of a literal string. -/
def strBytes (s : String) : List Nat :=
  s.data.map Char.toNat

/-- Decimal digits of a number, as ASCII bytes (operator<< on int). -/
def decimalBytes (n : Nat) : List Nat :=
  strBytes (Nat.repr n)

/-- Embedding of the loop body of write_string (node.cxx lines 56-129).
Processes the byte string, decoding one character per iteration with
pop_front_char; the default branch copies the consumed bytes verbatim.
The boolean argument is the running last_is_space flag. -/
def writeStringGo (ews eqq tr : Bool) (v : VersionT) :
    List Nat → Bool → Except String (List Nat)
  | [], _ => .ok []
  | b :: t, last =>
    match hpop : popFrontChar (b :: t) with
    | none => .error ("Invalid utf-8")
    | some (c, rest) =>
      let consumed := (b :: t).take ((b :: t).length - rest.length)
      if c = 38 then
        (writeStringGo ews eqq tr v rest false).map (fun o => strBytes ("&amp;") ++ o)
      else if c = 60 then
        (writeStringGo ews eqq tr v rest false).map (fun o => strBytes ("&lt;") ++ o)
      else if c = 62 then
        (writeStringGo ews eqq tr v rest false).map (fun o => strBytes ("&gt;") ++ o)
      else if c = 34 then
        (writeStringGo ews eqq tr v rest false).map
          (fun o => (if eqq then strBytes ("&quot;") else [34]) ++ o)
      else if c = 10 then
        (writeStringGo ews eqq tr v rest true).map
          (fun o => (if ews then strBytes ("&#10;") else [10]) ++ o)
      else if c = 13 then
        (writeStringGo ews eqq tr v rest false).map
          (fun o => (if ews then strBytes ("&#13;") else [13]) ++ o)
      else if c = 9 then
        (writeStringGo ews eqq tr v rest false).map
          (fun o => (if ews then strBytes ("&#9;") else [9]) ++ o)
      else if c = 32 then
        (writeStringGo ews eqq tr v rest true).map
          (fun o => (if ¬tr ∨ ¬last then [32] else []) ++ o)
      else if c = 0 then
        .error ("Invalid null character in XML content")
      else
        (writeStringGo ews eqq tr v rest false).map
          (fun o =>
            (if 0xA0 ≤ c ∨ (if v = ⟨1, 0⟩ then isValidXml10Char c else isValidXml11Char c)
              then consumed
              else strBytes ("&#") ++ decimalBytes c ++ [59]) ++ o)
termination_by s _ => s.length
decreasing_by
  all_goals exact popFrontChar_length hpop

/-- Embedding of write_string (node.cxx): last_is_space starts false. -/
def writeString (s : List Nat) (escape_whitespace escape_quot tr : Bool)
    (v : VersionT) : Except String (List Nat) :=
  writeStringGo escape_whitespace escape_quot tr v s false

/-- Per-character output of write_string on text content, as the claim
states it: the named escapes, whitespace references when requested,
verbatim bytes for printable characters, numeric references otherwise. -/
def escChar (ews eqq : Bool) (v : VersionT) (c : Nat) : List Nat :=
  if c = 38 then strBytes ("&amp;")
  else if c = 60 then strBytes ("&lt;")
  else if c = 62 then strBytes ("&gt;")
  else if c = 34 then (if eqq then strBytes ("&quot;") else [34])
  else if c = 10 then (if ews then strBytes ("&#10;") else [10])
  else if c = 13 then (if ews then strBytes ("&#13;") else [13])
  else if c = 9 then (if ews then strBytes ("&#9;") else [9])
  else if c = 32 then [32]
  else if 0xA0 ≤ c ∨ (if v = ⟨1, 0⟩ then isValidXml10Char c else isValidXml11Char c)
    then encodeUtf8Char c
    else strBytes ("&#") ++ decimalBytes c ++ [59]

theorem encodeUtf8Char_ne_nil (c : Nat) : encodeUtf8Char c ≠ [] := by
  unfold encodeUtf8Char
  split_ifs <;> simp

theorem writeStringGo_encode (ews eqq : Bool) (v : VersionT) :
    ∀ (cs : List Nat) (last : Bool), (∀ c ∈ cs, c < 0x200000) →
      writeStringGo ews eqq false v (cs.flatMap encodeUtf8Char) last =
        if 0 ∈ cs then Except.error ("Invalid null character in XML content")
        else Except.ok (cs.flatMap (escChar ews eqq v)) := by
  intro cs
  induction cs with
  | nil => intro last h; simp [writeStringGo]
  | cons c cs ih =>
    intro last h
    have hc : c < 0x200000 := h c (by simp)
    have hcs : ∀ x ∈ cs, x < 0x200000 := fun x hx => h x (by simp [hx])
    obtain ⟨b, t, he⟩ : ∃ b t, encodeUtf8Char c = b :: t := by
      cases hE : encodeUtf8Char c with
      | nil => exact absurd hE (encodeUtf8Char_ne_nil c)
      | cons b t => exact ⟨b, t, rfl⟩
    have hpop : popFrontChar (b :: (t ++ cs.flatMap encodeUtf8Char)) =
        some (c, cs.flatMap encodeUtf8Char) := by
      rw [show b :: (t ++ cs.flatMap encodeUtf8Char) =
        encodeUtf8Char c ++ cs.flatMap encodeUtf8Char by rw [he]; simp]
      exact popFrontChar_encodeUtf8Char c _ hc
    have hconsumed : (b :: (t ++ cs.flatMap encodeUtf8Char)).take
        ((b :: (t ++ cs.flatMap encodeUtf8Char)).length -
          (cs.flatMap encodeUtf8Char).length) = encodeUtf8Char c := by
      rw [show b :: (t ++ cs.flatMap encodeUtf8Char) =
        encodeUtf8Char c ++ cs.flatMap encodeUtf8Char by rw [he]; simp]
      rw [List.length_append, Nat.add_sub_cancel]
      simp
    rw [List.flatMap_cons, he, List.cons_append, writeStringGo]
    rw [hpop]
    simp only []
    rw [hconsumed]
    rw [ih false hcs, ih true hcs]
    simp only [List.flatMap_cons, List.mem_cons]
    by_cases h38 : c = 38
    · subst h38; by_cases h0 : 0 ∈ cs <;> simp [h0, escChar, Except.map]
    · rw [if_neg h38]
      by_cases h60 : c = 60
      · subst h60; by_cases h0 : 0 ∈ cs <;> simp [h0, escChar, Except.map]
      · rw [if_neg h60]
        by_cases h62 : c = 62
        · subst h62; by_cases h0 : 0 ∈ cs <;> simp [h0, escChar, Except.map]
        · rw [if_neg h62]
          by_cases h34 : c = 34
          · subst h34
            by_cases h0 : 0 ∈ cs <;> by_cases heq : eqq <;>
              simp [h0, heq, escChar, Except.map]
          · rw [if_neg h34]
            by_cases h10 : c = 10
            · subst h10
              by_cases h0 : 0 ∈ cs <;> by_cases hws : ews <;>
                simp [h0, hws, escChar, Except.map]
            · rw [if_neg h10]
              by_cases h13 : c = 13
              · subst h13
                by_cases h0 : 0 ∈ cs <;> by_cases hws : ews <;>
                  simp [h0, hws, escChar, Except.map]
              · rw [if_neg h13]
                by_cases h9 : c = 9
                · subst h9
                  by_cases h0 : 0 ∈ cs <;> by_cases hws : ews <;>
                    simp [h0, hws, escChar, Except.map]
                · rw [if_neg h9]
                  by_cases h32 : c = 32
                  · subst h32; by_cases h0 : 0 ∈ cs <;> simp [h0, escChar, Except.map]
                  · rw [if_neg h32]
                    by_cases hz : c = 0
                    · subst hz; simp
                    · rw [if_neg hz]
                      by_cases h0 : 0 ∈ cs <;>
                        by_cases hvalid : 0xA0 ≤ c ∨
                          (if v = ⟨1, 0⟩ then isValidXml10Char c else isValidXml11Char c) <;>
                        simp [h0, hz, h38, h60, h62, h34, h10, h13, h9, h32, hvalid,
                          escChar, Except.map, Ne.symm hz]

/-- Embedding note: writeString with the trim flag false, applied to the
UTF-8 encoding of a code-point sequence. -/
theorem writeString_encode (cs : List Nat) (ews eqq : Bool) (v : VersionT)
    (h : ∀ c ∈ cs, c < 0x200000) :
    writeString (cs.flatMap encodeUtf8Char) ews eqq false v =
      if 0 ∈ cs then Except.error ("Invalid null character in XML content")
      else Except.ok (cs.flatMap (escChar ews eqq v)) := by
  exact writeStringGo_encode ews eqq v cs false h

/-! ### DOM node tree: node.hpp / node.cxx

The claims about str(), document insertion, attribute sets and comment
output depend only on the child structure and textual payloads, so nodes
are modelled as a tree; attributes of elements are irrelevant to str()
(attributes are not children) and are kept in a separate model below. -/

/-- Concatenation of a list of strings in order (result += n.str() loop). -/
def strConcat : List String → String
  | [] => ""
  | s :: rest => s ++ strConcat rest

/-- The concrete node kinds that can appear as children (node_type without
attribute, document and header). -/
inductive XNode where
  | element (qname : String) (children : List XNode)
  | text (s : String)
  | cdata (s : String)
  | comment (s : String)
  | pi (target : String) (s : String)

/-- Embedding of str(): element_container::str (node.cxx lines 446-454)
concatenates str() over all child nodes; text, cdata, comment and
processing_instruction all inherit node_with_text::str (node.hpp lines
851-852), which returns the stored text. -/
def XNode.str : XNode → String
  | .element _ children => strConcat (children.attach.map (fun c => XNode.str c.1))
  | .text s => s
  | .cdata s => s
  | .comment s => s
  | .pi _ s => s
decreasing_by
  have := List.sizeOf_lt_of_mem c.2
  simp
  omega

/-- The claim side: the str() values of exactly the descendant text and
cdata nodes, in document order. -/
def XNode.textCdataDescendants : XNode → List String
  | .element _ children => (children.attach.map (fun c => XNode.textCdataDescendants c.1)).flatten
  | .text s => [s]
  | .cdata s => [s]
  | .comment _ => []
  | .pi _ _ => []
decreasing_by
  have := List.sizeOf_lt_of_mem c.2
  simp
  omega

/-- The amended claim side: the str() values of all descendant
text-carrying nodes (text, cdata, comment and processing instruction),
in document order. -/
def XNode.textualDescendants : XNode → List String
  | .element _ children => (children.attach.map (fun c => XNode.textualDescendants c.1)).flatten
  | .text s => [s]
  | .cdata s => [s]
  | .comment s => [s]
  | .pi _ s => [s]
decreasing_by
  have := List.sizeOf_lt_of_mem c.2
  simp
  omega

/-! ### document::insert_impl, document.cxx lines 257-262 -/

/-- Is the node an element? -/
def XNode.isElem : XNode → Bool
  | .element _ _ => true
  | _ => false

/-- Embedding of document::child (document.hpp lines 240-243): the first
child of element kind, or none (iteration over node_list<element> skips
non-element children). -/
def docChild (ns : List XNode) : Option XNode :=
  ns.find? XNode.isElem

/-- Embedding of basic_node_list::insert_impl (node.cxx lines 276-296)
on the children list: links the node in before the given position.  The
parent/sibling guards at its head cannot fire for the freshly
constructed node every public insert path passes in. -/
def basicInsertImpl (ns : List XNode) (pos : Nat) (n : XNode) : List XNode :=
  List.insertIdx pos n ns

/-- Embedding of document::insert_impl (document.cxx lines 257-262), the
override of the virtual basic_node_list::insert_impl (node.hpp line 345,
document.hpp line 261): refuses when a child element exists, otherwise
defers to the base list insertion. -/
def documentInsertImpl (ns : List XNode) (pos : Nat) (n : XNode) :
    Except String (List XNode) :=
  if (docChild ns).isSome then
    .error ("Only one child element is allowed in a document")
  else
    .ok (basicInsertImpl ns pos n)

/-- Embedding of node_list::insert (node.hpp lines 569-584), the path
insert, emplace, emplace_back and push_back on a document take: it calls
the non-virtual node_list::insert_impl (node.hpp lines 712-715), whose
body is the explicitly qualified call basic_node_list::insert_impl.  The
qualification binds statically, so the document override above never
runs and the insertion cannot fail. -/
def nodeListInsert (ns : List XNode) (pos : Nat) (n : XNode) :
    Except String (List XNode) :=
  .ok (basicInsertImpl ns pos n)

/-! ### attribute_set, node.hpp lines 1264-1307 -/

/-- DOM attribute: qualified name, value, is_id flag. -/
structure AttrRec where
  qname : String
  value : String
  id : Bool
deriving DecidableEq

/-- Embedding of attribute_set::find (node.hpp lines 1264-1279): index of
the first attribute whose qname equals the key. -/
def attrsFindIdx (l : List AttrRec) (key : String) : Option Nat :=
  l.findIdx? (fun a => a.qname == key)

/-- Embedding of attribute_set::emplace (node.hpp lines 1292-1307): when
an attribute with the same qname exists, move-assign onto it in place and
report inserted = false; otherwise insert at end() and report
inserted = true. -/
def attrsEmplace (l : List AttrRec) (a : AttrRec) : List AttrRec × Bool :=
  match attrsFindIdx l a.qname with
  | some i => (l.set i a, false)
  | none => (l ++ [a], true)

/-! ### comment::write, node.cxx lines 322-343 -/

/-- Embedding of the body loop of comment::write: emit a space before any
hyphen that directly follows an emitted hyphen of the text.  The boolean
is the running lastWasHyphen flag. -/
def commentBodyGo (lastWasHyphen : Bool) : List Char → List Char
  | [] => []
  | ch :: rest =>
    (if ch = '-' ∧ lastWasHyphen then [' ', ch] else [ch]) ++
      commentBodyGo (ch == '-') rest

/-- Embedding of comment::write (node.cxx lines 322-343). -/
def commentWrite (suppress_comments : Bool) (indent_width : Nat)
    (text : List Char) : List Char :=
  if suppress_comments then []
  else
    ("<!--").data ++ commentBodyGo false text ++ ("-->").data ++
      (if indent_width ≠ 0 then ['\n'] else [])

/-! ### DTD attribute validation, doctype.cpp lines 588-769 -/

/-- Collect leading name characters (the inner scanning loops of is_names
and is_nmtokens): returns the collected run and the remainder. -/
def namesTakeNameChars : List Nat → List Nat × List Nat
  | [] => ([], [])
  | c :: cs =>
    if isNameChar c then
      let r := namesTakeNameChars cs
      (c :: r.1, r.2)
    else ([], c :: cs)

theorem namesTakeNameChars_len (l : List Nat) :
    (namesTakeNameChars l).1.length + (namesTakeNameChars l).2.length = l.length := by
  induction l with
  | nil => simp [namesTakeNameChars]
  | cons c cs ih =>
    simp only [namesTakeNameChars]
    split_ifs <;> simp [ih] <;> omega

/-- The first scanning step of each outer iteration of is_names: when the
name-start test succeeded, collect the following name characters. -/
def namesScanStep (r : Bool) (cs : List Nat) : List Nat × List Nat :=
  if r then namesTakeNameChars cs else ([], cs)

theorem namesTakeNameChars_split {l a b : List Nat}
    (h : namesTakeNameChars l = (a, b)) : a.length + b.length = l.length := by
  have h2 := namesTakeNameChars_len l
  rw [h] at h2
  exact h2

theorem namesScanStep_len {r : Bool} {cs coll rest2 : List Nat}
    (h : namesScanStep r cs = (coll, rest2)) : rest2.length ≤ cs.length := by
  unfold namesScanStep at h
  split at h
  · have := namesTakeNameChars_split h
    omega
  · cases h
    exact Nat.le_refl _

/-- Embedding of the main loop of attribute::is_names (doctype.cpp
lines 608-646): scans whitespace separated names, normalizing the
separators to single spaces (the accumulated string t).  Note that after
a failed is_name_start_char test the C++ code overwrites result with the
following isspace test, exactly as modelled here. -/
def isNamesOuter : List Nat → Bool × List Nat
  | [] => (true, [])
  | c :: cs =>
    match hr : namesScanStep (isNameStartChar c) cs with
    | (collected, []) => (isNameStartChar c, c :: collected)
    | (collected, d :: ds) =>
      if isSpaceByte d then
        let result := isNamesOuter (ds.dropWhile isSpaceByte)
        (result.1, (c :: collected) ++ 32 :: result.2)
      else (false, (c :: collected) ++ [32])
termination_by l => l.length
decreasing_by
  have hle := namesScanStep_len hr
  have hdw : (ds.dropWhile isSpaceByte).length ≤ ds.length :=
    (List.dropWhile_sublist _).length_le
  simp at hle ⊢
  omega

/-- Embedding of attribute::is_names (doctype.cpp lines 608-646). -/
def isNames (s : List Nat) : Bool × List Nat :=
  let t := trimBytes s
  if t = [] then (true, [])
  else isNamesOuter t

/-- Embedding of the main loop of attribute::is_nmtokens (doctype.cpp
lines 661-703). -/
def nmtokensLoop : List Nat → Bool × List Nat
  | [] => (true, [])
  | c :: cs =>
    match hr : namesTakeNameChars (c :: cs) with
    | (collected, rest) =>
      if collected = [] then (false, [])
      else
        match rest with
        | [] => (true, collected)
        | d :: ds =>
          if d = 32 then
            let result := nmtokensLoop (ds.dropWhile (fun x => x == 32))
            (result.1, collected ++ 32 :: result.2)
          else (false, collected ++ [32])
termination_by l => l.length
decreasing_by
  have h3 := namesTakeNameChars_split hr
  have hcl : 0 < collected.length := List.length_pos.mpr (by assumption)
  have hdw : (ds.dropWhile (fun x => x == 32)).length ≤ ds.length :=
    (List.dropWhile_sublist _).length_le
  simp at h3 ⊢
  omega

/-- Embedding of attribute::is_nmtokens (doctype.cpp lines 661-703): the
string is replaced by the normalized form only on success. -/
def isNmtokens (s : List Nat) : Bool × List Nat :=
  let t := trimBytes s
  if t = [] then (false, [])
  else
    let r := nmtokensLoop t
    if r.1 then (true, r.2) else (false, t)

/-- Embedding of attribute::is_name (doctype.cpp lines 588-606). -/
def isNameF (s : List Nat) : Bool × List Nat :=
  let t := trimBytes s
  match t with
  | [] => (true, [])
  | c :: rest => (isNameStartChar c && rest.all isNameChar, t)

/-- Embedding of attribute::is_nmtoken (doctype.cpp lines 648-659).  The
scanning loop advances the iterator before testing, so the first
character of the trimmed value is never tested. -/
def isNmtoken (s : List Nat) : Bool × List Nat :=
  let t := trimBytes s
  ((decide (t ≠ []) && (t.drop 1).all isNameChar), t)

/-- DTD entity entry: name and whether the entity is parsed. -/
structure EntityRec where
  name : List Nat
  isParsed : Bool

/-- Embedding of attribute::is_unparsed_entity (doctype.cpp 759-769). -/
def isUnparsedEntity (s : List Nat) (l : List EntityRec) : Bool :=
  match l.find? (fun e => e.name == s) with
  | some e => e.isParsed == false
  | none => false

/-- attribute_type (doctype.hpp). -/
inductive AttrType where
  | CDATA | ID | IDREF | IDREFS | ENTITY | ENTITIES
  | NMTOKEN | NMTOKENS | NotationAttr | Enumerated
deriving DecidableEq

/-- attribute_default (doctype.hpp). -/
inductive AttrDefault where
  | NoneDef | RequiredDef | ImpliedDef | FixedDef | DefaultDef
deriving DecidableEq

/-- DTD attribute declaration: type, default behaviour, default value,
enumerated values. -/
structure DtdAttribute where
  type : AttrType
  dflt : AttrDefault
  defaultValue : List Nat
  enums : List (List Nat)

/-- Embedding of attribute::validate_value (doctype.cpp lines 705-757):
type-directed check (possibly normalizing the value), then the Fixed
default comparison. -/
def validateValue (a : DtdAttribute) (value : List Nat)
    (entities : List EntityRec) : Bool × List Nat :=
  let rv : Bool × List Nat :=
    match a.type with
    | .CDATA => (true, value)
    | .ENTITY =>
      let r := isNameF value
      if r.1 then (isUnparsedEntity r.2 entities, r.2) else r
    | .ID => isNameF value
    | .IDREF => isNameF value
    | .ENTITIES =>
      let r := isNames value
      if r.1 then
        ((r.2.splitOn 32).all (fun tok => isUnparsedEntity tok entities), r.2)
      else r
    | .IDREFS => isNames value
    | .NMTOKEN => isNmtoken value
    | .NMTOKENS => isNmtokens value
    | .NotationAttr => let v := trimBytes value; (a.enums.contains v, v)
    | .Enumerated => let v := trimBytes value; (a.enums.contains v, v)
  if rv.1 && a.dflt == AttrDefault.FixedDef && rv.2 != a.defaultValue then
    (false, rv.2)
  else rv

/-! ### Content-model FSM, doctype.cpp lines 43-584

The runtime states carry the mutable fields of the C++ state objects;
allowS returns the new state together with the (result, done) pair of the
C++ allow(name) call.  One modelling note: the C++ reset() leaves
state_seq::m_next and state_choice::m_sub untouched (they are dead until
reassigned, since reset puts m_state back to Start which overwrites them
before use); the model restores them to their initial values, which is
observationally the same.  Where the C++ code would dereference the end
iterator (state_seq::allow called again after the sequence was exhausted,
state_choice::allow in the locked state without a stored branch), the
model returns (false, false) with the state unchanged; no claim exercises
those paths. -/

/-- Repetition kind of content_spec_repeated (the characters ? * +). -/
inductive RepKind where
  | opt | star | plus
deriving DecidableEq

/-- content_spec tree (content_spec_any/empty/element/repeated/seq/choice,
doctype.hpp); Mixed content is choice with the mixed flag. -/
inductive ContentSpec where
  | anySpec
  | emptySpec
  | elem (name : String)
  | repeated (sub : ContentSpec) (rep : RepKind)
  | seq (subs : List ContentSpec)
  | choice (subs : List ContentSpec) (mixed : Bool)

/-- Runtime states (state_any, state_empty, state_element,
state_repeated_zero_or_once / _any / _at_least_once, state_seq,
state_choice).  m_state fields are Nats; state_seq carries the m_next
iterator as an index; state_choice carries m_sub as an index. -/
inductive FsmState where
  | anyS
  | emptyS
  | elemS (name : String) (done : Bool)
  | rep0or1 (sub : FsmState) (st : Nat)
  | repAny (sub : FsmState) (st : Nat)
  | rep1plus (sub : FsmState) (st : Nat)
  | seqS (states : List FsmState) (mnext : Nat) (st : Nat)
  | choiceS (states : List FsmState) (mixed : Bool) (st : Nat) (msub : Option Nat)

/-- create_state of each content_spec class (doctype.cpp 487-584). -/
def createState : ContentSpec → FsmState
  | .anySpec => .anyS
  | .emptySpec => .emptyS
  | .elem n => .elemS n false
  | .repeated sub .opt => .rep0or1 (createState sub) 0
  | .repeated sub .star => .repAny (createState sub) 0
  | .repeated sub .plus => .rep1plus (createState sub) 0
  | .seq subs => .seqS (subs.attach.map (fun s => createState s.1)) 0 0
  | .choice subs mixed => .choiceS (subs.attach.map (fun s => createState s.1)) mixed 0 none
decreasing_by
  all_goals first
  | (have h9 := List.sizeOf_lt_of_mem s.2
     simp
     omega)
  | (simp
     omega)

/-- The reset() virtual of each state class. -/
def resetS : FsmState → FsmState
  | .anyS => .anyS
  | .emptyS => .emptyS
  | .elemS n _ => .elemS n false
  | .rep0or1 sub _ => .rep0or1 (resetS sub) 0
  | .repAny sub _ => .repAny (resetS sub) 0
  | .rep1plus sub _ => .rep1plus (resetS sub) 0
  | .seqS states _ _ => .seqS (states.attach.map (fun s => resetS s.1)) 0 0
  | .choiceS states mixed _ _ =>
    .choiceS (states.attach.map (fun s => resetS s.1)) mixed 0 none
decreasing_by
  all_goals first
  | (have h9 := List.sizeOf_lt_of_mem s.2
     simp
     omega)
  | (simp
     omega)

/-- The allow_empty() virtual of each state class (a static property of
the state shape; state_element inherits the false default). -/
def allowEmptyS : FsmState → Bool
  | .anyS => true
  | .emptyS => true
  | .elemS _ _ => false
  | .rep0or1 _ _ => true
  | .repAny _ _ => true
  | .rep1plus sub _ => allowEmptyS sub
  | .seqS states _ _ => (states.attach.map (fun s => allowEmptyS s.1)).all id
  | .choiceS states mixed _ _ =>
    mixed || (states.attach.map (fun s => allowEmptyS s.1)).any id
decreasing_by
  all_goals first
  | (have h9 := List.sizeOf_lt_of_mem s.2
     simp
     omega)
  | (simp
     omega)

/-- Nesting depth of a state, the termination measure for allowS. -/
def stateDepth : FsmState → Nat
  | .anyS => 0
  | .emptyS => 0
  | .elemS _ _ => 0
  | .rep0or1 sub _ => stateDepth sub + 1
  | .repAny sub _ => stateDepth sub + 1
  | .rep1plus sub _ => stateDepth sub + 1
  | .seqS states _ _ => (states.attach.map (fun s => stateDepth s.1)).foldr max 0 + 1
  | .choiceS states _ _ _ => (states.attach.map (fun s => stateDepth s.1)).foldr max 0 + 1
decreasing_by
  all_goals first
  | (have h9 := List.sizeOf_lt_of_mem s.2
     simp
     omega)
  | (simp
     omega)

/-- Depth of a list of states. -/
def listDepth (l : List FsmState) : Nat :=
  (l.map stateDepth).foldr max 0

theorem stateDepth_seq (states : List FsmState) (mnext st : Nat) :
    stateDepth (.seqS states mnext st) = listDepth states + 1 := by
  simp [stateDepth, listDepth, List.attach_map_coe]

theorem stateDepth_choice (states : List FsmState) (mixed : Bool) (st : Nat)
    (msub : Option Nat) :
    stateDepth (.choiceS states mixed st msub) = listDepth states + 1 := by
  simp [stateDepth, listDepth, List.attach_map_coe]

theorem stateDepth_mem_le {s : FsmState} {l : List FsmState} (h : s ∈ l) :
    stateDepth s ≤ listDepth l := by
  induction l with
  | nil => cases h
  | cons x xs ih =>
    simp only [listDepth, List.map_cons, List.foldr_cons]
    rcases List.mem_cons.mp h with h1 | h2
    · subst h1
      exact Nat.le_max_left _ _
    · exact le_trans (ih h2) (Nat.le_max_right _ _)

theorem listDepth_subset_le {l1 l2 : List FsmState} (h : ∀ x ∈ l1, x ∈ l2) :
    listDepth l1 ≤ listDepth l2 := by
  induction l1 with
  | nil => simp [listDepth]
  | cons x xs ih =>
    simp only [listDepth, List.map_cons, List.foldr_cons]
    apply max_le
    · exact stateDepth_mem_le (h x (by simp))
    · exact ih (fun y hy => h y (by simp [hy]))

theorem listDepth_drop_le (n : Nat) (l : List FsmState) :
    listDepth (l.drop n) ≤ listDepth l :=
  listDepth_subset_le (fun x hx => (List.drop_subset n l) hx)

theorem resetS_depth (s : FsmState) : stateDepth (resetS s) = stateDepth s := by
  match s with
  | .anyS => simp [resetS, stateDepth]
  | .emptyS => simp [resetS, stateDepth]
  | .elemS n d => simp [resetS, stateDepth]
  | .rep0or1 sub st =>
    have := resetS_depth sub
    simp [resetS, stateDepth, this]
  | .repAny sub st =>
    have := resetS_depth sub
    simp [resetS, stateDepth, this]
  | .rep1plus sub st =>
    have := resetS_depth sub
    simp [resetS, stateDepth, this]
  | .seqS states mnext st =>
    have ih : ∀ x ∈ states, stateDepth (resetS x) = stateDepth x := by
      intro x hx
      have hs := List.sizeOf_lt_of_mem hx
      exact resetS_depth x
    simp only [resetS, List.attach_map_coe]
    rw [stateDepth_seq, stateDepth_seq, listDepth, listDepth, List.map_map]
    have hmaps : states.map (stateDepth ∘ resetS) = states.map stateDepth := by
      apply List.map_congr_left
      intro x hx
      simpa [Function.comp] using ih x hx
    rw [hmaps]
  | .choiceS states mixed st msub =>
    have ih : ∀ x ∈ states, stateDepth (resetS x) = stateDepth x := by
      intro x hx
      have hs := List.sizeOf_lt_of_mem hx
      exact resetS_depth x
    simp only [resetS, List.attach_map_coe]
    rw [stateDepth_choice, stateDepth_choice, listDepth, listDepth, List.map_map]
    have hmaps : states.map (stateDepth ∘ resetS) = states.map stateDepth := by
      apply List.map_congr_left
      intro x hx
      simpa [Function.comp] using ih x hx
    rw [hmaps]
termination_by sizeOf s
decreasing_by
  all_goals simp
  all_goals omega

theorem lexNatHelper {a b c d : Nat} (h : a < c ∨ (a = c ∧ b < d)) :
    Prod.Lex (fun x y => x < y) (fun x y => x < y) (a, b) (c, d) := by
  rcases h with h | ⟨he, hb⟩
  · exact Prod.Lex.left _ _ h
  · subst he
    exact Prod.Lex.right _ hb

theorem listDepth_cons (s : FsmState) (l : List FsmState) :
    listDepth (s :: l) = max (stateDepth s) (listDepth l) := by
  simp [listDepth]

theorem listDepth_tail_le (s : FsmState) (l : List FsmState) :
    listDepth l ≤ listDepth (s :: l) := by
  rw [listDepth_cons]
  exact Nat.le_max_right _ _

mutual

/-- The allow(name) virtual of each state class (doctype.cpp 58-434):
returns the mutated state and the C++ (result, done) pair. -/
def allowS : FsmState → String → FsmState × Bool × Bool
  | .anyS, _ => (.anyS, true, true)
  | .emptyS, _ => (.emptyS, false, true)
  | .elemS n done, name =>
    if ¬done ∧ n = name then (.elemS n true, true, true)
    else (.elemS n done, false, done)
  | .rep0or1 sub st, name =>
    if st = 0 then
      let r := allowS sub name
      if r.2.1 then (.rep0or1 r.1 1, r.2.1, r.2.2)
      else (.rep0or1 r.1 0, r.2.1, true)
    else if st = 1 then
      let r := allowS sub name
      (.rep0or1 r.1 1, r.2.1, r.2.2)
    else (.rep0or1 sub st, false, false)
  | .repAny sub st, name =>
    if st = 0 then
      let r := allowS sub name
      if r.2.1 then (.repAny r.1 1, r.2.1, r.2.2)
      else (.repAny r.1 0, r.2.1, true)
    else if st = 1 then
      let r := allowS sub name
      if r.2.1 = false ∧ r.2.2 = true then
        let r2 := allowS (resetS sub) name
        if r2.2.1 = false then (.repAny r2.1 1, r2.2.1, true)
        else (.repAny r2.1 1, r2.2.1, r2.2.2)
      else (.repAny r.1 1, r.2.1, r.2.2)
    else (.repAny sub st, false, false)
  | .rep1plus sub st, name =>
    if st = 0 then
      let r := allowS sub name
      if r.2.1 then (.rep1plus r.1 1, r.2.1, r.2.2)
      else (.rep1plus r.1 0, r.2.1, r.2.2)
    else if st = 1 then
      let r := allowS sub name
      if r.2.1 = false ∧ r.2.2 = true then
        let r2 := allowS (resetS sub) name
        if r2.2.1 then (.rep1plus r2.1 2, r2.2.1, r2.2.2)
        else (.rep1plus r2.1 1, r2.2.1, r2.2.2)
      else (.rep1plus r.1 1, r.2.1, r.2.2)
    else if st = 2 then
      let r := allowS sub name
      if r.2.1 = false ∧ r.2.2 = true then
        let r2 := allowS (resetS sub) name
        if r2.2.1 = false then (.rep1plus r2.1 2, r2.2.1, true)
        else (.rep1plus r2.1 2, r2.2.1, r2.2.2)
      else (.rep1plus r.1 2, r.2.1, r.2.2)
    else (.rep1plus sub st, false, false)
  | .seqS states mnext st, name =>
    if st = 0 then
      if states.isEmpty then (.seqS states 0 0, false, true)
      else
        let t := seqLoop states name
        (.seqS t.1 t.2.2.2 1, t.2.1, t.2.2.1)
    else if st = 1 then
      let t := seqLoop (states.drop mnext) name
      (.seqS (states.take mnext ++ t.1) (mnext + t.2.2.2) 1, t.2.1, t.2.2.1)
    else (.seqS states mnext st, false, false)
  | .choiceS states mixed st msub, name =>
    if st = 0 then
      let t := choiceLoop states name
      match t.2.2.2 with
      | some i => (.choiceS t.1 mixed 1 (some i), t.2.1, t.2.2.1)
      | none => (.choiceS t.1 mixed 0 msub, t.2.1, t.2.2.1)
    else if st = 1 then
      match msub with
      | some i =>
        match hs : states.get? i with
        | some s =>
          let r := allowS s name
          (.choiceS (states.set i r.1) mixed 1 msub, r.2.1, r.2.2)
        | none => (.choiceS states mixed st msub, false, false)
      | none => (.choiceS states mixed st msub, false, false)
    else (.choiceS states mixed st msub, false, false)
termination_by s name => (stateDepth s, 0)
decreasing_by
  all_goals apply lexNatHelper
  all_goals refine Or.inl ?_
  all_goals solve
  | (simp [stateDepth]
     try omega)
  | (rw [resetS_depth]
     simp [stateDepth]
     try omega)
  | (rw [stateDepth_seq]
     omega)
  | (rw [stateDepth_seq]
     exact Nat.lt_succ_of_le (listDepth_drop_le _ _))
  | (rw [stateDepth_choice]
     omega)
  | (rw [stateDepth_choice]
     refine Nat.lt_succ_of_le (stateDepth_mem_le ?_)
     exact List.get?_mem hs)

/-- The while loop of state_seq::allow (doctype.cpp 313-353) on the
states from m_next on: mutates the visited states, and returns the
(result, done) pair and the number of states passed over. -/
def seqLoop : List FsmState → String → List FsmState × Bool × Bool × Nat
  | [], _ => ([], false, true, 0)
  | s :: rest, name =>
    let r := allowS s name
    if r.2.1 = false ∧ r.2.2 = true then
      let t := seqLoop rest name
      (r.1 :: t.1, t.2.1, t.2.2.1, t.2.2.2 + 1)
    else (r.1 :: rest, r.2.1, r.2.2, 0)
termination_by l name => (listDepth l, l.length + 1)
decreasing_by
  all_goals apply lexNatHelper
  · have h1 : stateDepth s ≤ listDepth (s :: rest) := stateDepth_mem_le (by simp)
    rcases lt_or_eq_of_le h1 with h | h
    · exact Or.inl h
    · exact Or.inr ⟨h, by omega⟩
  · have h1 : listDepth rest ≤ listDepth (s :: rest) := listDepth_tail_le _ _
    rcases lt_or_eq_of_le h1 with h | h
    · exact Or.inl h
    · exact Or.inr ⟨h, by simp only [List.length_cons]; omega⟩

/-- The candidate loop of state_choice::allow (doctype.cpp 403-434):
tries the branches in order, mutating each tried branch, stopping at the
first accepting one (returned as an index); when no branch accepts, the
(result, done) pair of the last examined branch is returned. -/
def choiceLoop : List FsmState → String → List FsmState × Bool × Bool × Option Nat
  | [], _ => ([], false, false, none)
  | s :: rest, name =>
    let r := allowS s name
    if r.2.1 then (r.1 :: rest, r.2.1, r.2.2, some 0)
    else
      match rest with
      | [] => ([r.1], r.2.1, r.2.2, none)
      | d :: ds =>
        let t := choiceLoop (d :: ds) name
        (r.1 :: t.1, t.2.1, t.2.2.1, t.2.2.2.map (· + 1))
termination_by l name => (listDepth l, l.length + 1)
decreasing_by
  all_goals apply lexNatHelper
  · have h1 : stateDepth s ≤ listDepth (s :: rest) := stateDepth_mem_le (by simp)
    rcases lt_or_eq_of_le h1 with h | h
    · exact Or.inl h
    · exact Or.inr ⟨h, by omega⟩
  · have h1 : listDepth (d :: ds) ≤ listDepth (s :: d :: ds) := listDepth_tail_le _ _
    rcases lt_or_eq_of_le h1 with h | h
    · exact Or.inl h
    · exact Or.inr ⟨h, by simp only [List.length_cons]; omega⟩

end

/-- The acceptance protocol of the claim over the validator class
(doctype.cpp 445-478): create_state, m_done initialized to
allow_empty(), then one allow(name) per name (m_done becomes the done part),
accepting iff every allow returned true and done() holds at the end. -/
def fsmAccepts (S : ContentSpec) (w : List String) : Bool :=
  let init := createState S
  let result := w.foldl
    (fun (acc : FsmState × Bool × Bool) name =>
      let r := allowS acc.1 name
      (r.1, acc.2.1 && r.2.1, r.2.2))
    (init, true, allowEmptyS init)
  result.2.1 && result.2.2

/-- Modelled from the spec: the reference recursive matcher for
content-specs ("S.accepts(w)"), with the standard language semantics of
EMPTY, ANY, Element, Seq, Choice and Repeated, and Mixed (choice with
mixed flag) accepting any interleaving of its alternatives including the
empty sequence. -/
inductive SpecMatches : ContentSpec → List String → Prop where
  | anyM (w : List String) : SpecMatches .anySpec w
  | emptyM : SpecMatches .emptySpec []
  | elemM (n : String) : SpecMatches (.elem n) [n]
  | optNone (s : ContentSpec) : SpecMatches (.repeated s .opt) []
  | optOne (s : ContentSpec) (w : List String) :
      SpecMatches s w → SpecMatches (.repeated s .opt) w
  | starNil (s : ContentSpec) : SpecMatches (.repeated s .star) []
  | starCons (s : ContentSpec) (w1 w2 : List String) :
      SpecMatches s w1 → SpecMatches (.repeated s .star) w2 →
      SpecMatches (.repeated s .star) (w1 ++ w2)
  | plusOne (s : ContentSpec) (w : List String) :
      SpecMatches s w → SpecMatches (.repeated s .plus) w
  | plusMore (s : ContentSpec) (w1 w2 : List String) :
      SpecMatches s w1 → SpecMatches (.repeated s .plus) w2 →
      SpecMatches (.repeated s .plus) (w1 ++ w2)
  | seqNil : SpecMatches (.seq []) []
  | seqCons (s : ContentSpec) (ss : List ContentSpec) (w1 w2 : List String) :
      SpecMatches s w1 → SpecMatches (.seq ss) w2 →
      SpecMatches (.seq (s :: ss)) (w1 ++ w2)
  | choiceMem (s : ContentSpec) (ss : List ContentSpec) (w : List String) :
      s ∈ ss → SpecMatches s w → SpecMatches (.choice ss false) w
  | mixedNil (ss : List ContentSpec) : SpecMatches (.choice ss true) []
  | mixedCons (s : ContentSpec) (ss : List ContentSpec) (w1 w2 : List String) :
      s ∈ ss → SpecMatches s w1 → SpecMatches (.choice ss true) w2 →
      SpecMatches (.choice ss true) (w1 ++ w2)

/-! ### XPath object model and the claim-relevant evaluator pieces,
xpath.cxx lines 127-200 (core function table), 202-447 (object),
602-617 (context), 1158-1177 (variable), 1487-1509 (substring),
2478-2517 (function_call arity check) -/

/-- The XPath object sum: undef, node_set, boolean, number, string.
Nodes are identified abstractly; the C++ number is a double, modelled
here as an integer (none of the verified claims depends on non-integral
arithmetic). -/
inductive XObject where
  | undef
  | nodeSet (ns : List Nat)
  | boolean (b : Bool)
  | number (n : Int)
  | str (s : String)
deriving DecidableEq

/-- object::as<bool> (xpath.cxx 310-324): undef falls to the default
false. -/
def objAsBool : XObject → Bool
  | .number n => n ≠ 0
  | .nodeSet ns => ¬ns.isEmpty
  | .str s => s ≠ ""
  | .boolean b => b
  | .undef => false

/-- object::as<std::string> (xpath.cxx 373-391); node content is out of
scope for the claims using this, undef falls to the default empty. -/
def objAsString : XObject → String
  | .str s => s
  | .boolean b => if b then "true" else "false"
  | .number n => toString n
  | .nodeSet _ => ""
  | .undef => ""

/-- object::as<const node_set &> (xpath.cxx 302-308): throws unless the
object is a node-set. -/
def objAsNodeSet : XObject → Except String (List Nat)
  | .nodeSet ns => .ok ns
  | _ => .error ("object is not of type node-set")

/-- The variable map of context_imp (xpath.cxx 602-617): get returns
m_variables[name]; std::map::operator[] value-initializes a missing
entry, so an unset name yields the undef object (no exception). -/
def contextGet (vars : List (String × XObject)) (name : String) : XObject :=
  match vars.find? (fun p => p.1 == name) with
  | some p => p.2
  | none => XObject.undef

/-- A fragment of the compiled expression tree (literal_expression,
number_expression, variable_expression, and the Boolean and String core
functions). -/
inductive XPathExpr where
  | literal (s : String)
  | number (n : Int)
  | variable_ (name : String)
  | funcBoolean (arg : XPathExpr)
  | funcString (arg : XPathExpr)

/-- evaluate(context) for the fragment: variable_expression::evaluate
(xpath.cxx 1174-1177) returns context.get(name);
core_function_expression of Boolean and String coerce their argument. -/
def evalExpr (vars : List (String × XObject)) : XPathExpr → Except String XObject
  | .literal s => .ok (.str s)
  | .number n => .ok (.number n)
  | .variable_ name => .ok (contextGet vars name)
  | .funcBoolean arg => (evalExpr vars arg).map (fun v => .boolean (objAsBool v))
  | .funcString arg => (evalExpr vars arg).map (fun v => .str (objAsString v))

/-- The core-function list (CoreFunction enum, xpath.cxx 127-159). -/
inductive CoreFunctionId where
  | last | position | count | id | localName | namespaceUri | name
  | stringF | concat | startsWith | contains | substringBefore
  | substringAfter | substring | stringLength | normalizeSpace
  | translate | boolean | notF | trueF | falseF | lang | number | sum
  | floor | ceiling | round | comment
deriving DecidableEq

/-- The arg_count column of kCoreFunctionInfo (xpath.cxx 171-200);
kOptionalArgument is -100. -/
def coreFunctionArgCount : CoreFunctionId → Int
  | .last => 0
  | .position => 0
  | .count => 1
  | .id => 0
  | .localName => -100
  | .namespaceUri => -100
  | .name => -100
  | .stringF => -100
  | .concat => -2
  | .startsWith => 2
  | .contains => 2
  | .substringBefore => 2
  | .substringAfter => 2
  | .substring => -2
  | .stringLength => -100
  | .normalizeSpace => -100
  | .translate => 3
  | .boolean => 1
  | .notF => 1
  | .trueF => 0
  | .falseF => 0
  | .lang => 0
  | .number => -100
  | .sum => 0
  | .floor => 1
  | .ceiling => 1
  | .round => 1
  | .comment => 1

/-- The arity check of xpath_imp::function_call (xpath.cxx 2504-2516):
positive counts are exact, kOptionalArgument means at most one, other
negative counts only reject when fewer than the magnitude are given. -/
def functionCallArityOk (f : CoreFunctionId) (nargs : Nat) : Bool :=
  let expected := coreFunctionArgCount f
  if expected > 0 then nargs == expected.toNat
  else if expected == -100 then nargs ≤ 1
  else decide ((nargs : Int) ≥ -expected)

/-- core_function_expression of Substring, evaluate (xpath.cxx
1487-1509), applied to the already evaluated argument objects: the code
unconditionally dereferences three argument iterators; with fewer than
three compiled arguments the third dereference walks off the end of the
argument list, which has no defined result (modelled as none).  With
three or more arguments: both numeric arguments must be numbers, then
std::string::substr with its out_of_range failure mapped into the catch
block. -/
def substringEvaluate (args : List XObject) : Option (Except String XObject) :=
  match args with
  | v1 :: v2 :: v3 :: _ =>
    some (
      match v2, v3 with
      | .number p, .number l =>
        match v1 with
        | .str s =>
          -- substr(pos, len) with pos and len converted from int to
          -- size_t: a negative operand wraps to a huge value, so a
          -- negative pos throws out_of_range and a negative len takes
          -- the whole remainder
          if 1 ≤ p ∧ (p - 1) ≤ (s.length : Int) then
            .ok (.str (if l < 0 then s.drop (p - 1).toNat
              else (s.drop (p - 1).toNat).take l.toNat))
          else .error ("expected one string and two numbers as argument for substring")
        | _ => .error ("expected one string and two numbers as argument for substring")
      | _, _ => .error ("expected one string and two numbers as argument for substring"))
  | _ => none

/-! ### Helper lemmas: plain-map forms of the nested definitions -/

theorem createState_seq (subs : List ContentSpec) :
    createState (.seq subs) = .seqS (subs.map createState) 0 0 := by
  simp [createState, List.attach_map_coe]

theorem createState_choice (subs : List ContentSpec) (mixed : Bool) :
    createState (.choice subs mixed) = .choiceS (subs.map createState) mixed 0 none := by
  simp [createState, List.attach_map_coe]

theorem allowEmptyS_seq (states : List FsmState) (mnext st : Nat) :
    allowEmptyS (.seqS states mnext st) = (states.map allowEmptyS).all id := by
  simp [allowEmptyS, List.attach_map_coe]

theorem allowEmptyS_choice (states : List FsmState) (mixed : Bool) (st : Nat)
    (msub : Option Nat) :
    allowEmptyS (.choiceS states mixed st msub) =
      (mixed || (states.map allowEmptyS).any id) := by
  simp [allowEmptyS, List.attach_map_coe]

theorem str_element (q : String) (children : List XNode) :
    XNode.str (.element q children) = strConcat (children.map XNode.str) := by
  simp [XNode.str, List.attach_map_coe]

theorem textCdataDescendants_element (q : String) (children : List XNode) :
    XNode.textCdataDescendants (.element q children) =
      (children.map XNode.textCdataDescendants).flatten := by
  simp [XNode.textCdataDescendants, List.attach_map_coe]

theorem textualDescendants_element (q : String) (children : List XNode) :
    XNode.textualDescendants (.element q children) =
      (children.map XNode.textualDescendants).flatten := by
  simp [XNode.textualDescendants, List.attach_map_coe]

theorem strConcat_append (a b : List String) :
    strConcat (a ++ b) = strConcat a ++ strConcat b := by
  induction a with
  | nil => simp [strConcat]
  | cons s rest ih =>
    simp only [List.cons_append, strConcat, String.append_assoc, List.append_eq]
    rw [ih]

theorem strConcat_flatten (ls : List (List String)) :
    strConcat ls.flatten = strConcat (ls.map strConcat) := by
  induction ls with
  | nil => simp [strConcat]
  | cons l rest ih =>
    simp only [List.flatten_cons, List.map_cons, strConcat, strConcat_append, ih]

/-! ### Claim C2 -/

/-- C2: the single-child invariant of the document is not enforced on
insertion.  Every public insertion into a document (insert, emplace,
emplace_back, push_back) runs node_list::insert, which reaches
basic_node_list::insert_impl through a statically bound qualified call
and so bypasses the document::insert_impl override: a second child
element is inserted without an error, while the (unreachable) override
would have raised.  Concretely, after emplace of a first element the
emplace of a second one succeeds with both elements as children. -/
theorem c2_document_insert_bypasses_check :
    (∀ (ns : List XNode) (pos : Nat) (n : XNode),
        nodeListInsert ns pos n = Except.ok (basicInsertImpl ns pos n)) ∧
    (∀ (ns : List XNode) (pos : Nat) (n : XNode),
        (docChild ns).isSome = true →
        documentInsertImpl ns pos n =
          Except.error ("Only one child element is allowed in a document")) ∧
    nodeListInsert [XNode.element ("first") []] 1 (XNode.element ("second") []) =
      Except.ok [XNode.element ("first") [], XNode.element ("second") []] := by
  refine ⟨fun ns pos n => rfl, ?_, rfl⟩
  intro ns pos n h
  unfold documentInsertImpl
  rw [if_pos h]

/-- Closed instantiation of the C2 theorem: the actual insertion path
accepts a second element next to r, and the bypassed override would have
rejected it. -/
theorem c2_document_insert_bypasses_check_witness :
    nodeListInsert [XNode.element ("r") []] 1 (XNode.element ("x") []) =
      Except.ok (basicInsertImpl [XNode.element ("r") []] 1 (XNode.element ("x") [])) ∧
    documentInsertImpl [XNode.element ("r") []] 1 (XNode.element ("x") []) =
      Except.error ("Only one child element is allowed in a document") :=
  ⟨c2_document_insert_bypasses_check.1 [XNode.element ("r") []] 1 (XNode.element ("x") []),
   c2_document_insert_bypasses_check.2.1 [XNode.element ("r") []] 1 (XNode.element ("x") [])
     (by simp [docChild, List.find?, XNode.isElem])⟩

/-! ### Claim C9 -/

theorem attrsFindIdx_spec (l : List AttrRec) (key : String) (i : Nat)
    (h : attrsFindIdx l key = some i) :
    ∃ hi : i < l.length, (l.get ⟨i, hi⟩).qname = key := by
  induction l generalizing i with
  | nil => simp [attrsFindIdx] at h
  | cons x xs ih =>
    rw [attrsFindIdx, List.findIdx?_cons] at h
    by_cases hx : x.qname == key
    · rw [if_pos hx] at h
      cases h
      exact ⟨by simp, by simpa using hx⟩
    · rw [if_neg hx, List.findIdx?_succ] at h
      simp only [Option.map_eq_some'] at h
      obtain ⟨j, hj, rfl⟩ := h
      obtain ⟨hjl, hget⟩ := ih j hj
      exact ⟨by simpa using Nat.succ_lt_succ hjl, by simpa using hget⟩

theorem attrsFindIdx_none (l : List AttrRec) (key : String)
    (h : attrsFindIdx l key = none) : ∀ x ∈ l, x.qname ≠ key := by
  intro x hx
  have := List.findIdx?_eq_none_iff.mp h x hx
  simpa using this

theorem list_set_self {α : Type} (l : List α) (i : Nat) (a : α)
    (hi : i < l.length) (h : l.get ⟨i, hi⟩ = a) : l.set i a = l := by
  apply List.ext_getElem (by simp)
  intro j h1 h2
  rw [List.getElem_set]
  split
  · rename_i hj
    subst hj
    rw [← h]
    simp
  · rfl

/-- C9: attribute_set::emplace replaces in place the first attribute with
the same qualified name (reporting inserted = false) and otherwise
appends at the end (reporting inserted = true); consequently an
attribute set whose qualified names are pairwise distinct keeps that
invariant under emplace. -/
theorem c9_attrs_emplace_unique :
    (∀ (l : List AttrRec) (a : AttrRec) (i : Nat),
        attrsFindIdx l a.qname = some i → attrsEmplace l a = (l.set i a, false)) ∧
    (∀ (l : List AttrRec) (a : AttrRec),
        attrsFindIdx l a.qname = none → attrsEmplace l a = (l ++ [a], true)) ∧
    (∀ (l : List AttrRec) (a : AttrRec),
        (l.map AttrRec.qname).Nodup → ((attrsEmplace l a).1.map AttrRec.qname).Nodup) := by
  refine ⟨?_, ?_, ?_⟩
  · intro l a i h
    unfold attrsEmplace
    rw [h]
  · intro l a h
    unfold attrsEmplace
    rw [h]
  · intro l a h
    unfold attrsEmplace
    cases hfind : attrsFindIdx l a.qname with
    | some i =>
      obtain ⟨hi, hget⟩ := attrsFindIdx_spec l a.qname i hfind
      have hset : (l.set i a).map AttrRec.qname = l.map AttrRec.qname := by
        rw [List.map_set]
        apply list_set_self
        · simpa using hget
        · simpa using hi
      simpa [hset] using h
    | none =>
      have hne := attrsFindIdx_none l a.qname hfind
      simp only [List.map_append, List.map_cons, List.map_nil]
      rw [List.nodup_append]
      refine ⟨h, List.nodup_singleton _, ?_⟩
      intro x hx hy
      simp only [List.mem_singleton] at hy
      subst hy
      obtain ⟨b, hb, hbq⟩ := List.mem_map.mp hx
      exact hne b hb hbq

/-- Witness for C9: a replacing emplace, a fresh emplace, and the
invariant, at concrete attribute lists. -/
theorem c9_attrs_emplace_unique_witness :
    attrsEmplace [⟨"id", "1", false⟩] ⟨"id", "2", false⟩ =
      ([⟨"id", "2", false⟩], false) ∧
    attrsEmplace [⟨"id", "1", false⟩] ⟨"cls", "x", false⟩ =
      ([⟨"id", "1", false⟩, ⟨"cls", "x", false⟩], true) ∧
    (((attrsEmplace [⟨"id", "1", false⟩] ⟨"cls", "x", false⟩).1.map
        AttrRec.qname).Nodup) := by
  refine ⟨?_, ?_, ?_⟩
  · exact c9_attrs_emplace_unique.1 [⟨"id", "1", false⟩] ⟨"id", "2", false⟩ 0 (by decide)
  · exact c9_attrs_emplace_unique.2.1 [⟨"id", "1", false⟩] ⟨"cls", "x", false⟩ (by decide)
  · exact c9_attrs_emplace_unique.2.2 [⟨"id", "1", false⟩] ⟨"cls", "x", false⟩ (by decide)

/-! ### Claim C10 -/

theorem commentBodyGo_chain (l : List Char) :
    ∀ last : Bool,
      List.Chain' (fun a b => ¬(a = '-' ∧ b = '-')) (commentBodyGo last l) ∧
        (∀ c, (commentBodyGo last l).head? = some c → c = '-' → last = false) := by
  induction l with
  | nil => intro last; simp [commentBodyGo]
  | cons ch rest ih =>
    intro last
    obtain ⟨ih1, ih2⟩ := ih (ch == '-')
    by_cases hcl : ch = '-' ∧ last
    · rw [commentBodyGo, if_pos hcl]
      constructor
      · simp only [List.cons_append, List.nil_append]
        rw [List.chain'_cons]
        refine ⟨by simp, ?_⟩
        rw [List.chain'_cons']
        refine ⟨?_, ih1⟩
        intro y hy hcontra
        obtain ⟨hch, hydash⟩ := hcontra
        have := ih2 y (by simpa using hy) hydash
        rw [hcl.1] at this
        simp at this
      · intro c hc
        simp only [List.cons_append, List.nil_append, List.head?_cons,
          Option.some.injEq] at hc
        subst hc
        intro habs
        simp at habs
    · rw [commentBodyGo, if_neg hcl]
      constructor
      · simp only [List.cons_append, List.nil_append]
        rw [List.chain'_cons']
        refine ⟨?_, ih1⟩
        intro y hy hcontra
        obtain ⟨hch, hydash⟩ := hcontra
        have := ih2 y (by simpa using hy) hydash
        rw [hch] at this
        simp at this
      · intro c hc
        simp only [List.cons_append, List.nil_append, List.head?_cons,
          Option.some.injEq] at hc
        subst hc
        intro hdash
        cases hl : last
        · rfl
        · subst hl
          exact absurd ⟨hdash, rfl⟩ hcl

/-- C10: when suppress_comments is not set, comment::write emits
lessthan!minusminus, the transformed body, and the closing sequence; the
transformation inserts a space between any two consecutive hyphens, so
the emitted body never contains two adjacent hyphens (no "--"
substring). -/
theorem c10_comment_write_no_double_hyphen (iw : Nat) (text : List Char) :
    commentWrite false iw text =
      ("<!--").data ++ commentBodyGo false text ++ ("-->").data ++
        (if iw ≠ 0 then ['\n'] else []) ∧
    ¬ (['-', '-'] <:+: commentBodyGo false text) := by
  constructor
  · simp [commentWrite]
  · intro h
    obtain ⟨s, t, he⟩ := h
    have hchain := ((commentBodyGo_chain text) false).1
    rw [List.append_assoc] at he
    rw [← he, List.chain'_append] at hchain
    have h2 := hchain.2.1
    simp only [List.cons_append, List.nil_append] at h2
    rw [List.chain'_cons] at h2
    exact h2.1 ⟨rfl, rfl⟩

/-! ### Claim C4 -/

/-- C4 counterexample: for the element with a single comment child with
text x, str() returns the comment text x, while the claim (concatenation
of the str() of descendant text and cdata nodes only) yields the empty
string: comment content does appear in element_container::str. -/
theorem c4_counterexample :
    XNode.str (XNode.element ("e") [XNode.comment ("x")]) ≠
      strConcat (XNode.textCdataDescendants (XNode.element ("e") [XNode.comment ("x")])) := by
  rw [str_element, textCdataDescendants_element]
  simp [XNode.str, XNode.textCdataDescendants, strConcat]

/-- C4 amended: for every node, str() equals the concatenation in
document order of the str() values of all descendant text-carrying nodes
(text, cdata, comment and processing instruction). -/
theorem c4_str_concatenates_textual_descendants (n : XNode) :
    XNode.str n = strConcat (XNode.textualDescendants n) := by
  match n with
  | .text s => simp [XNode.str, XNode.textualDescendants, strConcat]
  | .cdata s => simp [XNode.str, XNode.textualDescendants, strConcat]
  | .comment s => simp [XNode.str, XNode.textualDescendants, strConcat]
  | .pi t s => simp [XNode.str, XNode.textualDescendants, strConcat]
  | .element q children =>
    have ih : ∀ c ∈ children, XNode.str c = strConcat (XNode.textualDescendants c) := by
      intro c hc
      have := List.sizeOf_lt_of_mem hc
      exact c4_str_concatenates_textual_descendants c
    rw [str_element, textualDescendants_element, strConcat_flatten, List.map_map]
    congr 1
    apply List.map_congr_left
    intro c hc
    simpa [Function.comp] using ih c hc
termination_by sizeOf n
decreasing_by
  simp
  omega

/-! ### Claim C6 -/

/-- C6: the code accepts the NMTOKEN value consisting of the single byte
0x3F (a question mark), although 0x3F is not a name_char: the scanning
loop of attribute::is_nmtoken advances the iterator before testing, so
the first character of the trimmed value is never checked (the sibling
is_nmtokens checks every character).  The claim, and XML 1.0 (Nmtoken
::= (NameChar)+), require rejection. -/
theorem c6_nmtoken_first_char_unchecked :
    validateValue ⟨AttrType.NMTOKEN, AttrDefault.NoneDef, [], []⟩ [0x3F] [] =
      (true, [0x3F]) ∧
    isNameChar 0x3F = false := by
  decide

/-! ### Claim C7 -/

/-- C7 counterexample: a lone continuation byte 0x80 is not valid UTF-8,
yet pop_front_char does not fail on it: the byte matches none of the
multi-byte lead patterns and is returned unchanged as a code point. -/
theorem c7_counterexample : popFrontChar [0x80] = some (0x80, []) := by
  decide

/-- C7 amended: pop_front_char advances past and decodes every
canonically encoded code point below 2^21; it fails when a two-byte lead
byte has no following byte or an invalid continuation byte; but a byte
matching no lead pattern (a lone continuation byte 0x80..0xBF, or
0xF8..0xFF) is consumed and returned as its own value instead of
failing. -/
theorem c7_pop_front_utf8 :
    (∀ (c : Nat) (r : List Nat), c < 0x200000 →
        popFrontChar (encodeUtf8Char c ++ r) = some (c, r)) ∧
    (∀ b : Nat, 0xC0 ≤ b → b ≤ 0xDF → popFrontChar [b] = none) ∧
    (∀ (b c : Nat) (r : List Nat), 0xC0 ≤ b → b ≤ 0xDF → ¬(c &&& 0xC0 = 0x80) →
        popFrontChar (b :: c :: r) = none) ∧
    (∀ (b : Nat) (r : List Nat), 0x80 ≤ b → b ≤ 0xBF →
        popFrontChar (b :: r) = some (b, r)) ∧
    (∀ (b : Nat) (r : List Nat), 0xF8 ≤ b → b ≤ 0xFF →
        popFrontChar (b :: r) = some (b, r)) := by
  have mask2 : ∀ q < 32, ((0xC0 + q) &&& 0x0E0 = 0x0C0) := by decide
  have maskCont : ∀ q < 64, ¬((0x80 + q) &&& 0x0E0 = 0x0C0) ∧
      ¬((0x80 + q) &&& 0x0F0 = 0x0E0) ∧ ¬((0x80 + q) &&& 0x0F8 = 0x0F0) := by decide
  have maskHigh : ∀ q < 8, ¬((0xF8 + q) &&& 0x0E0 = 0x0C0) ∧
      ¬((0xF8 + q) &&& 0x0F0 = 0x0E0) ∧ ¬((0xF8 + q) &&& 0x0F8 = 0x0F0) := by decide
  refine ⟨popFrontChar_encodeUtf8Char, ?_, ?_, ?_, ?_⟩
  · intro b h1 h2
    obtain ⟨q, hq, rfl⟩ : ∃ q, q < 32 ∧ b = 0xC0 + q := ⟨b - 0xC0, by omega, by omega⟩
    simp only [popFrontChar]
    rw [if_pos (by omega), if_pos (by simpa using mask2 q hq)]
  · intro b c r h1 h2 h3
    obtain ⟨q, hq, rfl⟩ : ∃ q, q < 32 ∧ b = 0xC0 + q := ⟨b - 0xC0, by omega, by omega⟩
    simp only [popFrontChar]
    rw [if_pos (by omega), if_pos (by simpa using mask2 q hq),
      if_pos (by simpa using h3)]
  · intro b r h1 h2
    obtain ⟨q, hq, rfl⟩ : ∃ q, q < 64 ∧ b = 0x80 + q := ⟨b - 0x80, by omega, by omega⟩
    obtain ⟨m1, m2, m3⟩ := maskCont q hq
    simp only [popFrontChar]
    rw [if_pos (by omega), if_neg (by simpa using m1), if_neg (by simpa using m2),
      if_neg (by simpa using m3)]
  · intro b r h1 h2
    obtain ⟨q, hq, rfl⟩ : ∃ q, q < 8 ∧ b = 0xF8 + q := ⟨b - 0xF8, by omega, by omega⟩
    obtain ⟨m1, m2, m3⟩ := maskHigh q hq
    simp only [popFrontChar]
    rw [if_pos (by omega), if_neg (by simpa using m1), if_neg (by simpa using m2),
      if_neg (by simpa using m3)]

/-- Witness for C7 at the euro sign, a truncated two-byte sequence, a bad
continuation, a lone continuation byte and a 0xF8 byte. -/
theorem c7_pop_front_utf8_witness :
    popFrontChar (encodeUtf8Char 0x20AC ++ [0x41]) = some (0x20AC, [0x41]) ∧
    popFrontChar [0xC3] = none ∧
    popFrontChar [0xC3, 0x41, 0x42] = none ∧
    popFrontChar [0x80, 0x41] = some (0x80, [0x41]) ∧
    popFrontChar [0xFB, 0x41] = some (0xFB, [0x41]) :=
  ⟨c7_pop_front_utf8.1 0x20AC [0x41] (by decide),
   c7_pop_front_utf8.2.1 0xC3 (by decide) (by decide),
   c7_pop_front_utf8.2.2.1 0xC3 0x41 [0x42] (by decide) (by decide) (by decide),
   c7_pop_front_utf8.2.2.2.1 0x80 [0x41] (by decide) (by decide),
   c7_pop_front_utf8.2.2.2.2 0xFB [0x41] (by decide) (by decide)⟩

/-! ### Claim C8 -/

/-- C8: write_string over the UTF-8 encoding of a code point sequence
(with the trim flag false, as for text content): writing aborts with the
null-character error exactly when the text contains a NUL, and otherwise
the output is the per-character escape map, under which every ampersand
becomes the amp entity, every less-than the lt entity, every
greater-than the gt entity, and every double quote the quot entity when
escape_double_quote is set (see escChar). -/
theorem c8_write_string_escaping (cs : List Nat) (ews eqq : Bool) (v : VersionT)
    (h : ∀ c ∈ cs, c < 0x200000) :
    writeString (cs.flatMap encodeUtf8Char) ews eqq false v =
      if 0 ∈ cs then Except.error ("Invalid null character in XML content")
      else Except.ok (cs.flatMap (escChar ews eqq v)) :=
  writeStringGo_encode ews eqq v cs false h

/-- Witness for C8: the text with an ampersand, both angle brackets, a
quote and an a, escaped (with escape_double_quote set); and a text with
a NUL aborting. -/
theorem c8_write_string_escaping_witness :
    writeString ([38, 60, 62, 34, 97].flatMap encodeUtf8Char) false true false ⟨1, 0⟩ =
      (if 0 ∈ [38, 60, 62, 34, 97] then
        Except.error ("Invalid null character in XML content")
      else Except.ok ([38, 60, 62, 34, 97].flatMap (escChar false true ⟨1, 0⟩))) ∧
    writeString ([97, 0].flatMap encodeUtf8Char) false true false ⟨1, 0⟩ =
      (if 0 ∈ [97, 0] then Except.error ("Invalid null character in XML content")
      else Except.ok ([97, 0].flatMap (escChar false true ⟨1, 0⟩))) :=
  ⟨c8_write_string_escaping [38, 60, 62, 34, 97] false true ⟨1, 0⟩ (by decide),
   c8_write_string_escaping [97, 0] false true ⟨1, 0⟩ (by decide)⟩

/-! ### Claim C3 -/

/-- C3 counterexample: the compiled expression boolean of the variable x,
evaluated against a context on which no variable was set, yields the
value Boolean false instead of raising: context_imp::get
value-initializes the missing map entry to the undef object, and
as<bool> coerces undef to false. -/
theorem c3_counterexample :
    evalExpr [] (XPathExpr.funcBoolean (XPathExpr.variable_ ("x"))) =
      Except.ok (XObject.boolean false) := by
  rfl

/-- C3 amended: evaluating a variable reference whose name is not set on
the evaluation context yields the undef object rather than raising; an
error arises only when that undef is later coerced to a node-set (for
example by the node-set returning top level evaluate), while the
boolean, number and string coercions silently produce false, zero and
the empty string. -/
theorem c3_unknown_variable_yields_undef (vars : List (String × XObject))
    (name : String) (h : vars.find? (fun p => p.1 == name) = none) :
    evalExpr vars (XPathExpr.variable_ name) = Except.ok XObject.undef ∧
    objAsNodeSet XObject.undef = Except.error ("object is not of type node-set") ∧
    objAsBool XObject.undef = false ∧
    objAsString XObject.undef = "" := by
  refine ⟨?_, rfl, rfl, rfl⟩
  simp [evalExpr, contextGet, h]

/-- Witness for C3 amended at the empty context and the name x. -/
theorem c3_unknown_variable_yields_undef_witness :
    evalExpr [] (XPathExpr.variable_ ("x")) = Except.ok XObject.undef ∧
    objAsNodeSet XObject.undef = Except.error ("object is not of type node-set") ∧
    objAsBool XObject.undef = false ∧
    objAsString XObject.undef = "" :=
  c3_unknown_variable_yields_undef [] ("x") (by decide)

/-! ### Claim C5 -/

/-- C5: the arity table admits the two-argument call of substring (entry
-2, at least two), and admits three arguments, but the evaluator of
substring unconditionally dereferences a third argument iterator, so the
accepted two-argument form has no defined result (undefined behaviour)
instead of returning the suffix. -/
theorem c5_substring_two_arg_undefined :
    functionCallArityOk CoreFunctionId.substring 2 = true ∧
    functionCallArityOk CoreFunctionId.substring 3 = true ∧
    substringEvaluate [XObject.str ("12345"), XObject.number 2] = none := by
  exact ⟨rfl, rfl, rfl⟩

/-! ### Claim C1 -/

theorem seqMatchesNilAux (ss : List ContentSpec) :
    ∀ w, SpecMatches (.seq ss) w → w = [] → ∀ s ∈ ss, SpecMatches s [] := by
  induction ss with
  | nil =>
    intro w h hw s hs
    simp at hs
  | cons s rest ih =>
    intro w h hw
    cases h with
    | seqCons _ _ w1 w2 h1 h2 =>
      obtain ⟨rfl, rfl⟩ := List.append_eq_nil.mp hw
      intro x hx
      rcases List.mem_cons.mp hx with rfl | hx2
      · exact h1
      · exact ih [] h2 rfl x hx2

theorem seqMatchesNil (ss : List ContentSpec) :
    SpecMatches (.seq ss) [] ↔ ∀ s ∈ ss, SpecMatches s [] := by
  constructor
  · intro h
    exact seqMatchesNilAux ss [] h rfl
  · intro h
    induction ss with
    | nil => exact .seqNil
    | cons s rest ih =>
      exact .seqCons s rest [] [] (h s (by simp)) (ih (fun x hx => h x (by simp [hx])))

theorem plusMatchesNil {sub : ContentSpec}
    (h : SpecMatches (.repeated sub .plus) []) : SpecMatches sub [] := by
  have H : ∀ w, SpecMatches (.repeated sub .plus) w → w = [] → SpecMatches sub [] := by
    intro w hm hw
    cases hm with
    | plusOne _ _ h1 => subst hw; exact h1
    | plusMore _ w1 w2 h1 h2 =>
      obtain ⟨rfl, -⟩ := List.append_eq_nil.mp hw
      exact h1
  exact H [] h rfl

theorem choiceMatchesNilFalse {subs : List ContentSpec}
    (h : SpecMatches (.choice subs false) []) : ∃ s ∈ subs, SpecMatches s [] := by
  cases h with
  | choiceMem s ss w hmem hm => exact ⟨s, hmem, hm⟩

/-- allow_empty of the created state agrees with nullability of the
reference matcher. -/
theorem nullable_correct (S : ContentSpec) :
    allowEmptyS (createState S) = true ↔ SpecMatches S [] := by
  match S with
  | .anySpec =>
    constructor
    · intro _
      exact .anyM []
    · intro _
      simp [createState, allowEmptyS]
  | .emptySpec =>
    constructor
    · intro _
      exact .emptyM
    · intro _
      simp [createState, allowEmptyS]
  | .elem n =>
    constructor
    · intro h
      exfalso
      simp [createState, allowEmptyS] at h
    · intro h
      exfalso
      cases h
  | .repeated sub .opt =>
    constructor
    · intro _
      exact .optNone sub
    · intro _
      simp [createState, allowEmptyS]
  | .repeated sub .star =>
    constructor
    · intro _
      exact .starNil sub
    · intro _
      simp [createState, allowEmptyS]
  | .repeated sub .plus =>
    have ih := nullable_correct sub
    constructor
    · intro h
      have hsub : allowEmptyS (createState sub) = true := by
        simpa [createState, allowEmptyS] using h
      exact .plusOne sub [] (ih.mp hsub)
    · intro h
      have hsub := ih.mpr (plusMatchesNil h)
      simpa [createState, allowEmptyS] using hsub
  | .seq subs =>
    have ih : ∀ s ∈ subs, (allowEmptyS (createState s) = true ↔ SpecMatches s []) := by
      intro s hs
      have := List.sizeOf_lt_of_mem hs
      exact nullable_correct s
    rw [createState_seq, allowEmptyS_seq, seqMatchesNil, List.map_map, List.all_eq_true]
    constructor
    · intro h s hs
      exact (ih s hs).mp (h _ (List.mem_map.mpr ⟨s, hs, rfl⟩))
    · intro h b hb
      obtain ⟨s, hs, rfl⟩ := List.mem_map.mp hb
      exact (ih s hs).mpr (h s hs)
  | .choice subs mixed =>
    have ih : ∀ s ∈ subs, (allowEmptyS (createState s) = true ↔ SpecMatches s []) := by
      intro s hs
      have := List.sizeOf_lt_of_mem hs
      exact nullable_correct s
    rw [createState_choice, allowEmptyS_choice, List.map_map]
    cases mixed with
    | true =>
      simp only [Bool.true_or]
      constructor
      · intro _
        exact .mixedNil subs
      · intro _
        trivial
    | false =>
      simp only [Bool.false_or]
      rw [List.any_eq_true]
      constructor
      · intro h
        obtain ⟨b, hb, hid⟩ := h
        obtain ⟨s, hs, rfl⟩ := List.mem_map.mp hb
        exact .choiceMem s subs [] hs ((ih s hs).mp hid)
      · intro h
        obtain ⟨s, hs, hm⟩ := choiceMatchesNilFalse h
        exact ⟨_, List.mem_map.mpr ⟨s, hs, rfl⟩, (ih s hs).mpr hm⟩
termination_by sizeOf S
decreasing_by
  all_goals simp
  all_goals omega

theorem fsmAccepts_nil (S : ContentSpec) :
    fsmAccepts S [] = allowEmptyS (createState S) := by
  simp [fsmAccepts]

/-- The advance behaviour of the state_seq loop: every sub-state passed
over reported done without accepting, and an acceptance happens at a
sub-state inside the list. -/
theorem seqLoop_spec (name : String) :
    ∀ (ss ss2 : List FsmState) (r d : Bool) (k : Nat),
      seqLoop ss name = (ss2, r, d, k) →
      k ≤ ss.length ∧
      (∀ i < k, ∃ s, ss.get? i = some s ∧ (allowS s name).2 = (false, true)) ∧
      (r = true → k < ss.length) := by
  intro ss
  induction ss with
  | nil =>
    intro ss2 r d k h
    rw [seqLoop] at h
    cases h
    refine ⟨by simp, by simp, by simp⟩
  | cons s rest ih =>
    intro ss2 r d k h
    rw [seqLoop] at h
    by_cases hc : (allowS s name).2.1 = false ∧ (allowS s name).2.2 = true
    · rw [if_pos hc] at h
      obtain ⟨he1, he2, he3, he4⟩ : ss2 = (allowS s name).1 :: (seqLoop rest name).1 ∧
          r = (seqLoop rest name).2.1 ∧ d = (seqLoop rest name).2.2.1 ∧
          k = (seqLoop rest name).2.2.2 + 1 := by
        cases h
        exact ⟨rfl, rfl, rfl, rfl⟩
      obtain ⟨ih1, ih2, ih3⟩ := ih (seqLoop rest name).1 (seqLoop rest name).2.1
        (seqLoop rest name).2.2.1 (seqLoop rest name).2.2.2 rfl
      subst he4
      refine ⟨by simp; omega, ?_, ?_⟩
      · intro i hi
        match i with
        | 0 =>
          exact ⟨s, rfl, by rw [Prod.ext_iff]; exact ⟨hc.1, hc.2⟩⟩
        | j + 1 =>
          obtain ⟨t, ht, hta⟩ := ih2 j (by omega)
          exact ⟨t, by simpa using ht, hta⟩
      · intro hr
        subst he2
        have := ih3 hr
        simp
        omega
    · rw [if_neg hc] at h
      obtain ⟨he1, he2, he3, he4⟩ : ss2 = (allowS s name).1 :: rest ∧
          r = (allowS s name).2.1 ∧ d = (allowS s name).2.2 ∧ k = 0 := by
        cases h
        exact ⟨rfl, rfl, rfl, rfl⟩
      subst he4
      refine ⟨by simp, by simp, by simp⟩

/-- Counterexample to C1: for the content-spec (a, b) the compiled FSM
accepts the one-name word ["a"], because state_seq::allow returns the
done flag of the current child (doctype.cpp 351-352) and the validator
accepts when result and done both hold; the reference matcher requires a
"b" after the "a". -/
theorem c1_counterexample :
    fsmAccepts (ContentSpec.seq [ContentSpec.elem ("a"), ContentSpec.elem ("b")])
        ["a"] = true ∧
    ¬ SpecMatches (ContentSpec.seq [ContentSpec.elem ("a"), ContentSpec.elem ("b")])
        ["a"] := by
  constructor
  · rw [fsmAccepts]
    simp only [createState_seq, List.map_cons, List.map_nil]
    rw [show createState (ContentSpec.elem ("a")) = FsmState.elemS ("a") false by
      rw [createState]]
    rw [show createState (ContentSpec.elem ("b")) = FsmState.elemS ("b") false by
      rw [createState]]
    simp [allowS, seqLoop, allowEmptyS]
  · have key : ∀ w,
        SpecMatches (ContentSpec.seq [ContentSpec.elem ("a"), ContentSpec.elem ("b")]) w →
        w ≠ ["a"] := by
      intro w h
      cases h with
      | seqCons _ _ w1 w2 h1 h2 =>
        cases h1 with
        | elemM _ =>
          intro hcontra
          have hw2 : w2 = [] := by simpa using hcontra
          subst hw2
          have hb := seqMatchesNilAux [ContentSpec.elem ("b")] [] h2 rfl
            (ContentSpec.elem ("b")) (by simp)
          cases hb
    intro h
    exact key ["a"] h rfl

/-- C1 (amended): what the code does establish of the claim.  (i) The
compiled FSM agrees with the reference matcher on the empty word: for
every content-spec S, running the validator on no names accepts iff S
matches []. (ii) In a state_seq, the loop passes a sub-state over only
when that sub-state reported done without consuming the name
(allow returned (false, true)), the count of passed-over states never
exceeds the list, and a consuming acceptance happens at a sub-state
inside the list.  (iii) A state_seq allows the empty word exactly when
every child state does. -/
theorem c1_fsm_partial_agreement :
    (∀ S : ContentSpec, fsmAccepts S [] = true ↔ SpecMatches S []) ∧
    (∀ (name : String) (ss ss2 : List FsmState) (r d : Bool) (k : Nat),
      seqLoop ss name = (ss2, r, d, k) →
      k ≤ ss.length ∧
      (∀ i < k, ∃ s, ss.get? i = some s ∧ (allowS s name).2 = (false, true)) ∧
      (r = true → k < ss.length)) ∧
    (∀ (states : List FsmState) (mnext st : Nat),
      allowEmptyS (.seqS states mnext st) = (states.map allowEmptyS).all id) := by
  refine ⟨?_, ?_, ?_⟩
  · intro S
    rw [fsmAccepts_nil]
    exact nullable_correct S
  · intro name ss ss2 r d k h
    exact seqLoop_spec name ss ss2 r d k h
  · intro states mnext st
    exact allowEmptyS_seq states mnext st

/-- Closed instantiation of the amended C1 theorem: the nullability
equivalence at EMPTY, and the seqLoop property at a concrete singleton
list whose loop equation is discharged by evaluation. -/
theorem c1_fsm_partial_agreement_witness :
    SpecMatches ContentSpec.emptySpec [] ∧ (0 : Nat) < [FsmState.anyS].length := by
  have heq : seqLoop [FsmState.anyS] "x" = ([FsmState.anyS], true, true, 0) := by
    simp [seqLoop, allowS]
  refine ⟨?_, ?_⟩
  · exact (c1_fsm_partial_agreement.1 ContentSpec.emptySpec).mp (by
      rw [fsmAccepts_nil]
      simp [createState, allowEmptyS])
  · exact (c1_fsm_partial_agreement.2.1 "x" [FsmState.anyS] [FsmState.anyS]
      true true 0 heq).2.2 rfl

end Mxml
